import Mathlib

/-!
Shallow embedding of the emd2mrc pipeline (src/core.py, with the worker loop
of src/GUI.py), and proofs of the specification claims about it.

Conventions of the embedding:
* Filenames, node paths and text blobs are `List Char` (Python `str`).
* Numeric angles are `ℚ`: every value the extraction regex can capture is a
  finite decimal literal, represented exactly; IEEE-754 conversion of such
  literals is order-preserving, so sort statements transfer.
* Fallible calls are `Option`/`Except`: `none`/`.error` models a raised
  Python exception at that point.
* The cooperative cancellation flag is a function `ℕ → Bool` of the poll
  counter: poll `k` is the k-th time `cancel_flag()` is evaluated.
-/

namespace Emd2Mrc

/-! ### Python string primitives -/

/-- Whitespace, as recognised by Python `str.split()` with no argument and by
the regex class `\s` (ASCII fragment; the non-ASCII Unicode spaces play no
role in any claim). -/
def isPySpace (c : Char) : Bool :=
  c = ' ' || c = '\t' || c = '\n' || c = '\r' || c = '\x0b' || c = '\x0c'

/-- Helper for `splitWs`: `acc` holds the pending token, reversed. -/
def splitWsAux : List Char → List Char → List (List Char)
  | [], acc => if acc.isEmpty then [] else [acc.reverse]
  | c :: cs, acc =>
    if isPySpace c then
      if acc.isEmpty then splitWsAux cs [] else acc.reverse :: splitWsAux cs []
    else splitWsAux cs (c :: acc)

/-- Python `str.split()` (no separator): split on runs of whitespace,
discarding empty pieces. -/
def splitWs (s : List Char) : List (List Char) := splitWsAux s []

/-- Index of the last `'.'` in the name, if any (CPython `str.rfind('.')`). -/
def rfindDotAux : List Char → Nat → Option Nat → Option Nat
  | [], _, best => best
  | c :: cs, i, best => rfindDotAux cs (i + 1) (if c = '.' then some i else best)

/-- CPython `PurePath(name).stem` for a one-component path: drop the part from
the last dot on, unless that dot is the first character (hidden file) or the
last character of the name. -/
def pyStem (name : List Char) : List Char :=
  match rfindDotAux name 0 none with
  | none => name
  | some i => if 0 < i && i + 1 < name.length then name.take i else name

/-- Python `s.replace(" ", "_")`: a single-character replacement is a map. -/
def pyReplaceSpaceUnderscore (s : List Char) : List Char :=
  s.map fun c => if c = ' ' then '_' else c

/-- ASCII lower-casing, as `str.lower()` and `re.IGNORECASE` act on the ASCII
letters appearing in the pattern and node names of this program. -/
def toLowerAscii (c : Char) : Char := c.toLower

/-- Python `" ".join(tokens)`. -/
def joinSpace : List (List Char) → List Char
  | [] => []
  | [t] => t
  | t :: ts => t ++ ' ' :: joinSpace ts

/-- ASCII decimal digit, the `\d` of the embedded pattern. (Python `\d` also
matches other Unicode decimal digits; no claim involves those, and CPython
`float()` converts them to the same values, so the restriction is faithful on
the inputs that matter.) -/
def isAsciiDigit (c : Char) : Bool := '0' ≤ c && c ≤ '9'

/-- Value of a string of decimal digits. -/
def digitsToNat (ds : List Char) : Nat :=
  ds.foldl (fun n c => 10 * n + (c.toNat - '0'.toNat)) 0

/-- The U+2212 MINUS SIGN appearing in the extraction pattern of src/core.py
line 28. -/
def minusSign : Char := '−'

/-- CPython `float()` on the strings that the capture group of the pattern can
produce: an optional ASCII sign, ASCII digits, an optional point, more digits.
Any other character — in particular the U+2212 MINUS SIGN, which CPython does
not transform to ASCII — makes `float()` raise `ValueError`, modelled as
`none`. The accepted decimal is represented exactly as a rational. -/
def pyFloat (s : List Char) : Option ℚ :=
  let (neg, s1) :=
    match s with
    | '-' :: r => (true, r)
    | '+' :: r => (false, r)
    | _ => (false, s)
  let ip := s1.takeWhile isAsciiDigit
  let s2 := s1.dropWhile isAsciiDigit
  let (fp, s3) :=
    match s2 with
    | '.' :: r => (r.takeWhile isAsciiDigit, r.dropWhile isAsciiDigit)
    | _ => ([], s2)
  if !s3.isEmpty then none
  else if ip.isEmpty && fp.isEmpty then none
  else
    let den : Nat := 10 ^ fp.length
    let q : ℚ := mkRat (Int.ofNat (digitsToNat ip * den + digitsToNat fp)) den
    some (if neg then Rat.neg q else q)

/-! ### The extraction regex

`re.search(r'"alphatilt"\s*:\s*"?(−?-?\d+\.?\d*)"?', text, re.IGNORECASE)`
(src/core.py line 28). The pattern is compiled by hand: every optional or
starred piece is followed by a piece that can never match what the former
consumes (`\s` vs `:`, `"` vs digits, `−`/`-` vs digits), so greedy matching
never backtracks and the matcher below is an exact model of the Python
engine's behaviour on it, including the captured group. -/

/-- The literal part `"alphatilt"` of the pattern, lower-case. -/
def keyLit : List Char := "\"alphatilt\"".toList

/-- Match a literal pattern fragment case-insensitively at the head of the
input; return the rest of the input. -/
def matchCI : List Char → List Char → Option (List Char)
  | [], cs => some cs
  | _ :: _, [] => none
  | p :: ps, c :: cs => if toLowerAscii c = p then matchCI ps cs else none

/-- Try to match the whole pattern at the head of `cs`; on success return the
text captured by the group `(−?-?\d+\.?\d*)`. -/
def matchAt (cs : List Char) : Option (List Char) :=
  match matchCI keyLit cs with
  | none => none
  | some cs1 =>
    match cs1.dropWhile isPySpace with
    | ':' :: cs3 =>
      let cs4 := (cs3.dropWhile isPySpace)
      let cs5 := match cs4 with | '"' :: r => r | _ => cs4
      let (m1, cs6) := match cs5 with
        | c :: r => if c = minusSign then ([minusSign], r) else ([], cs5)
        | _ => ([], cs5)
      let (m2, cs7) := match cs6 with | '-' :: r => (['-'], r) | _ => ([], cs6)
      let ds1 := cs7.takeWhile isAsciiDigit
      if ds1.isEmpty then none
      else
        let cs8 := cs7.dropWhile isAsciiDigit
        let (m3, cs9) := match cs8 with | '.' :: r => (['.'], r) | _ => ([], cs8)
        let ds2 := cs9.takeWhile isAsciiDigit
        some (m1 ++ m2 ++ ds1 ++ m3 ++ ds2)
    | _ => none

/-- Model of `re.search`: the match attempted at the leftmost position wins. -/
def reSearch : List Char → Option (List Char)
  | [] => none
  | c :: cs =>
    match matchAt (c :: cs) with
    | some g => some g
    | none => reSearch cs

/-- Python's substring test `pat in s`. -/
def containsSubstr (pat : List Char) : List Char → Bool
  | [] => pat.isEmpty
  | c :: cs => pat.isPrefixOf (c :: cs) || containsSubstr pat cs

/-! ### Data model -/

/-- One named node of the hierarchical metadata container, as handed to the
`visititems` visitor of src/core.py lines 14-32: its full slash path, whether
it is a dataset, and the UTF-8 decode (errors ignored, so never failing) of
its flattened raw payload. `payload = none` models a node whose
`obj[()] / flatten / tobytes` read raises — caught per node by the
`try/except` of lines 25-32. -/
structure EmdNode where
  path : List Char
  isDataset : Bool
  payload : Option (List Char)
deriving DecidableEq

/-- An opened metadata container: its nodes in `visititems` traversal order. -/
structure EmdFile where
  nodes : List EmdNode
deriving DecidableEq

/-- A decoded single-channel floating-point 2D image (`Image.open(...)
.convert("F")` then `np.array`), row-major. -/
abbrev Image2D := List (List ℚ)

/-- A collected `(alphaTilt, image path)` pair, src/core.py line 95. -/
abbrev TiltRecord := ℚ × List Char

/-- The key order used by `records.sort(key=lambda x: x[0])`. -/
def recLE (a b : TiltRecord) : Prop := a.1 ≤ b.1

instance : DecidableRel recLE := fun a b => inferInstanceAs (Decidable (a.1 ≤ b.1))

instance : IsTotal TiltRecord recLE := ⟨fun a b => le_total a.1 b.1⟩

instance : IsTrans TiltRecord recLE := ⟨fun _ _ _ h1 h2 => le_trans h1 h2⟩

/-- Python `list.sort` is a stable ascending sort by the key; insertion sort
with a non-strict key order computes exactly that input/output function, and
being structurally recursive it also evaluates inside the kernel. -/
def pySortRecords (rs : List TiltRecord) : List TiltRecord :=
  rs.insertionSort recLE

/-- Exceptions that can escape the pipeline into the worker's top-level
handler. -/
inductive PipeError
  /-- Case where `h5py.File(emd_path, "r")` raised: the container exists but cannot be
  opened (src/core.py line 34 has no surrounding `try`). -/
  | openError (path : List Char)
  /-- Case where `Image.open(img_path).convert("F")` raised (src/core.py line 110, not
  caught inside `load_images_sorted_by_alpha`). -/
  | decodeError (path : List Char)
  /-- Case where `np.stack` raised: empty sequence or mismatched slice shapes. -/
  | shapeError
deriving DecidableEq

/-- The fixed surroundings of one pipeline run: the metadata directory
listing, the result of opening each container (`none` = `h5py.File` raises),
and the result of decoding each image file (`none` = PIL raises). -/
structure Env where
  emdDirFiles : List (List Char)
  openEmd : List Char → Option EmdFile
  decode : List Char → Option Image2D

/-! ### src/core.py, function by function -/

/-- Per-node visitor body (src/core.py lines 14-32), folded over the nodes in
traversal order. A node is considered only while no angle has been found yet,
only if it is a dataset whose lower-cased path contains "metadata"; a raising
payload read, a failed pattern search, or a `float()` that raises (the
captured group can contain U+2212, which `float()` rejects) all leave the
accumulator unchanged — the per-node `try/except` swallows them. -/
def visitNode (acc : Option ℚ) (n : EmdNode) : Option ℚ :=
  match acc with
  | some a => some a
  | none =>
    if n.isDataset && containsSubstr ("metadata".toList) (n.path.map toLowerAscii) then
      match n.payload with
      | none => none
      | some text =>
        match reSearch text with
        | none => none
        | some g => pyFloat g
    else none

/-- Function `extract_alpha_tilt_from_emd` (src/core.py lines 11-37). The argument is
the result of `h5py.File(emd_path, "r")`: `none` means the open raised, and
since the `with` statement is not inside any `try`, that exception propagates
to the caller — modelled as `.error`. An opened container is scanned
node by node and the function returns the first successfully parsed angle, or
`none`. -/
def extract_alpha_tilt_from_emd (container : Option EmdFile) : Except Unit (Option ℚ) :=
  match container with
  | none => .error ()
  | some f => .ok (f.nodes.foldl visitNode none)

/-- Function `extract_source_from_filename` (src/core.py lines 42-45): the last
whitespace token of the filename stem, or the empty string. -/
def extract_source_from_filename (filename : List Char) : List Char :=
  match (splitWs (pyStem filename)).getLast? with
  | some t => t
  | none => []

/-- The five glob patterns of src/core.py line 52. -/
def imageExtPatterns : List (List Char) :=
  [".png".toList, ".jpg".toList, ".jpeg".toList, ".tif".toList, ".tiff".toList]

/-- Model of `image_dir.glob` for one pattern. The directory is `Option`-valued:
`none` models a path that does not exist, for which CPython's pathlib
selector (`_Selector.select_from` checks `is_dir` first) yields no entries
and raises nothing. For an existing directory the pattern `*.<ext>` full-
matches exactly the entries ending in `.<ext>` (the `*` may be empty). -/
def pyGlob (dir : Option (List (List Char))) (ext : List Char) : List (List Char) :=
  match dir with
  | none => []
  | some files => files.filter (fun f => ext.isSuffixOf f)

/-- The `images` list of src/core.py lines 51-53: the five globs concatenated
in pattern order. -/
def globImages (dir : Option (List (List Char))) : List (List Char) :=
  imageExtPatterns.foldl (fun acc ext => acc ++ pyGlob dir ext) []

/-- Model of `groups.setdefault(source, []).append(img)` over an insertion-ordered
dict, represented as an association list. -/
def insertGroup : List (List Char × List (List Char)) → List Char → List Char →
    List (List Char × List (List Char))
  | [], s, img => [(s, [img])]
  | (k, l) :: rest, s, img =>
    if k = s then (k, l ++ [img]) :: rest
    else (k, l) :: insertGroup rest s img

/-- Function `group_images_by_source` (src/core.py lines 50-60). -/
def group_images_by_source (dir : Option (List (List Char))) :
    List (List Char × List (List Char)) :=
  (globImages dir).foldl
    (fun gs img => insertGroup gs (extract_source_from_filename img) img) []

/-- Function `find_matching_emd` (src/core.py lines 65-72): fewer than two stem tokens
is an immediate "not found"; otherwise the last token is dropped, the rest is
rejoined with single spaces, `.emd` appended, and the name is returned only
if it exists in the metadata directory. -/
def find_matching_emd (imgName : List Char) (emdDirFiles : List (List Char)) :
    Option (List Char) :=
  let tokens := splitWs (pyStem imgName)
  if tokens.length < 2 then none
  else
    let emdName := joinSpace tokens.dropLast ++ ".emd".toList
    if emdName ∈ emdDirFiles then some emdName else none

/-- First loop of `load_images_sorted_by_alpha` (src/core.py lines 81-98):
poll cancellation once per image (`.ok none` = cancelled run), skip images
without a matching container or without a parsable angle, propagate a raising
`h5py.File` open, and collect the `(alpha, path)` records in input order.
`k` is the index of the next cancellation poll. -/
def loadPhase1 (env : Env) (cancel : ℕ → Bool) :
    List (List Char) → ℕ → Except PipeError (Option (List TiltRecord))
  | [], _ => .ok (some [])
  | img :: rest, k =>
    if cancel k then .ok none
    else
      match find_matching_emd img env.emdDirFiles with
      | none => loadPhase1 env cancel rest (k + 1)
      | some emdPath =>
        match extract_alpha_tilt_from_emd (env.openEmd emdPath) with
        | .error _ => .error (.openError emdPath)
        | .ok none => loadPhase1 env cancel rest (k + 1)
        | .ok (some a) =>
          match loadPhase1 env cancel rest (k + 1) with
          | .error e => .error e
          | .ok none => .ok none
          | .ok (some recs) => .ok (some ((a, img) :: recs))

/-- Second loop of `load_images_sorted_by_alpha` (src/core.py lines 105-115):
for each sorted record, poll cancellation, then decode the image — a raising
decode is NOT caught and propagates — and collect the decoded slices in
order. -/
def loadPhase2 (env : Env) (cancel : ℕ → Bool) :
    List TiltRecord → ℕ → Except PipeError (Option (List Image2D))
  | [], _ => .ok (some [])
  | r :: rs, k =>
    if cancel k then .ok none
    else
      match env.decode r.2 with
      | none => .error (.decodeError r.2)
      | some img =>
        match loadPhase2 env cancel rs (k + 1) with
        | .error e => .error e
        | .ok none => .ok none
        | .ok (some imgs) => .ok (some (img :: imgs))

/-- Shape of a 2D slice, for the `np.stack` check. -/
def shapeOf (img : Image2D) : List ℕ := img.map List.length

/-- Model of `np.stack(stack, axis=0)` (src/core.py line 117): raises on an empty
sequence or on slices of differing shapes, and otherwise returns the slices
unchanged along a new leading axis. -/
def npStack (imgs : List Image2D) : Except PipeError (List Image2D) :=
  match imgs with
  | [] => .error .shapeError
  | i :: rest =>
    if rest.all (fun j => shapeOf j == shapeOf i) then .ok (i :: rest)
    else .error .shapeError

/-- Function `load_images_sorted_by_alpha` (src/core.py lines 77-117): collect the
records, return `None` if none were collected, sort them stably by angle,
decode in sorted order, and stack. `.ok none` is the Python `None` (cancelled
or empty), `.error` a propagating exception. The log and progress callbacks
receive data but influence nothing and are omitted. -/
def load_images_sorted_by_alpha (env : Env) (cancel : ℕ → Bool)
    (imageFiles : List (List Char)) : Except PipeError (Option (List Image2D)) :=
  match loadPhase1 env cancel imageFiles 0 with
  | .error e => .error e
  | .ok none => .ok none
  | .ok (some records) =>
    if records.isEmpty then .ok none
    else
      match loadPhase2 env cancel (pySortRecords records) imageFiles.length with
      | .error e => .error e
      | .ok none => .ok none
      | .ok (some imgs) =>
        match npStack imgs with
        | .error e => .error e
        | .ok stack => .ok (some stack)

/-! ### src/GUI.py, the worker loop around the core -/

/-- An output volume file: `write_mrc` (src/core.py lines 120-123) creates the
parent directory and writes the float32 volume at the named path; the values
are already 32-bit floats from `convert("F")`, so the cast is the identity on
the modelled data. -/
structure MrcFile where
  name : List Char
  data : List Image2D
deriving DecidableEq

/-- Function `write_mrc` as the file it produces. -/
def write_mrc (stack : List Image2D) (name : List Char) : MrcFile :=
  ⟨name, stack⟩

/-- The output file name: `source.replace(" ", "_")` plus `.mrc`
(src/GUI.py lines 70-71). -/
def outputName (source : List Char) : List Char :=
  pyReplaceSpaceUnderscore source ++ ".mrc".toList

/-- One iteration of `Worker.run` (src/GUI.py lines 58-73) for a selected
source: run the assembler; `None` means skip with a log line and no file,
a volume is written under the underscored source name, and an exception
propagates to the handler of lines 78-79. -/
def workerProcessGroup (env : Env) (cancel : ℕ → Bool) (source : List Char)
    (files : List (List Char)) : Except PipeError (Option MrcFile) :=
  match load_images_sorted_by_alpha env cancel files with
  | .error e => .error e
  | .ok none => .ok none
  | .ok (some stack) => .ok (some (write_mrc stack (outputName source)))

/-- The never-signalled cancellation flag. -/
def neverCancel : ℕ → Bool := fun _ => false

/-- The `Worker.run` loop over the selected sources with no cancellation:
the written files in order, plus the error that aborted the run, if any.
The `try/except` around the whole loop (src/GUI.py lines 37-79) turns the
first escaping exception into a single error signal and stops the run;
files of groups already written remain. -/
def workerRun (env : Env) :
    List (List Char × List (List Char)) → List MrcFile × Option PipeError
  | [] => ([], none)
  | (s, fs) :: rest =>
    match workerProcessGroup env neverCancel s fs with
    | .error e => ([], some e)
    | .ok none => workerRun env rest
    | .ok (some f) =>
      let (more, err) := workerRun env rest
      (f :: more, err)

/-- MainWindow.scan_sources (src/GUI.py lines 168-183): a non-existent image
directory is rejected with a warning dialog before the Grouper is ever
invoked (`none`); otherwise the directory is scanned and grouped. -/
def scan_sources (dir : Option (List (List Char))) :
    Option (List (List Char × List (List Char))) :=
  match dir with
  | none => none
  | some files => some (group_images_by_source (some files))

/-! ### Concrete instances used by the witnesses -/

deriving instance DecidableEq for Except

/-- A three-image tilt series `t1/t2/t3 Foo` with angles 10, -5, 0, the §8
end-to-end scenario of the specification. -/
def sampleEnv : Env where
  emdDirFiles := ["t1.emd".toList, "t2.emd".toList, "t3.emd".toList]
  openEmd := fun p =>
    if p = "t1.emd".toList then
      some ⟨[⟨"Data/Metadata".toList, true, some "\"alphaTilt\": \"10\"".toList⟩]⟩
    else if p = "t2.emd".toList then
      some ⟨[⟨"Data/Metadata".toList, true, some "\"alphaTilt\": \"-5\"".toList⟩]⟩
    else if p = "t3.emd".toList then
      some ⟨[⟨"Data/Metadata".toList, true, some "\"alphaTilt\": \"0\"".toList⟩]⟩
    else none
  decode := fun p =>
    if p = "t1 Foo.png".toList then some [[1]]
    else if p = "t2 Foo.png".toList then some [[2]]
    else if p = "t3 Foo.png".toList then some [[3]]
    else none

/-- The image files of the sample series, in scan order. -/
def sampleFiles : List (List Char) :=
  ["t1 Foo.png".toList, "t2 Foo.png".toList, "t3 Foo.png".toList]

/-- A cancellation flag that is already signalled at the first poll. -/
def alwaysCancel : ℕ → Bool := fun _ => true

/-- The sample surroundings with every image decode raising. -/
def badDecodeEnv : Env where
  emdDirFiles := sampleEnv.emdDirFiles
  openEmd := sampleEnv.openEmd
  decode := fun _ => none

/-- A directory listing with two data sources, used by the grouping witness. -/
def sampleDir : Option (List (List Char)) :=
  some ["a A.png".toList, "b A.png".toList, "c B.jpg".toList]

/-! ### Tokeniser lemmas -/

/-- Every token produced by `splitWsAux` is free of whitespace characters,
provided the pending token is. -/
theorem splitWsAux_no_space (s : List Char) :
    ∀ acc, (∀ c ∈ acc, isPySpace c = false) →
      ∀ t ∈ splitWsAux s acc, ∀ c ∈ t, isPySpace c = false := by
  induction s with
  | nil =>
    intro acc hacc t ht c hc
    unfold splitWsAux at ht
    split at ht
    · cases ht
    · rcases List.mem_singleton.mp ht with rfl
      exact hacc c (List.mem_reverse.mp hc)
  | cons c0 cs ih =>
    intro acc hacc t ht c hc
    unfold splitWsAux at ht
    split at ht
    · next hsp =>
      split at ht
      · exact ih [] (by intro c h; cases h) t ht c hc
      · rcases List.mem_cons.mp ht with rfl | ht2
        · exact hacc c (List.mem_reverse.mp hc)
        · exact ih [] (by intro c h; cases h) t ht2 c hc
    · next hsp =>
      refine ih (c0 :: acc) ?_ t ht c hc
      intro c1 hc1
      rcases List.mem_cons.mp hc1 with rfl | hc2
      · exact Bool.eq_false_iff.mpr hsp
      · exact hacc c1 hc2

/-- Every token of a Python `str.split()` is free of whitespace. -/
theorem splitWs_no_space (s t : List Char) (ht : t ∈ splitWs s) :
    ∀ c ∈ t, isPySpace c = false :=
  splitWsAux_no_space s [] (by intro c h; cases h) t ht

/-- The Classifier output is a whitespace-split token (or empty), so it holds
no whitespace characters. -/
theorem extract_source_no_space (filename : List Char) :
    ∀ c ∈ extract_source_from_filename filename, isPySpace c = false := by
  unfold extract_source_from_filename
  cases h : (splitWs (pyStem filename)).getLast? with
  | none => intro c hc; cases hc
  | some t => exact splitWs_no_space _ t (List.mem_of_getLast?_eq_some h)

/-! ### Claim C10 -/

/-- C10: the source identifier returned by the Filename Classifier contains no
whitespace characters, hence the output-naming `source.replace(" ", "_")` of
the worker is the identity on every classifier-derived identifier, and the
output file is named by the identifier itself plus `.mrc`. -/
theorem source_id_has_no_whitespace (filename : List Char) :
    (∀ c ∈ extract_source_from_filename filename, isPySpace c = false) ∧
    pyReplaceSpaceUnderscore (extract_source_from_filename filename) =
      extract_source_from_filename filename ∧
    outputName (extract_source_from_filename filename) =
      extract_source_from_filename filename ++ ".mrc".toList := by
  have hns := extract_source_no_space filename
  have hrepl : pyReplaceSpaceUnderscore (extract_source_from_filename filename) =
      extract_source_from_filename filename := by
    unfold pyReplaceSpaceUnderscore
    have : ∀ c ∈ extract_source_from_filename filename,
        (if c = ' ' then '_' else c) = c := by
      intro c hc
      have h1 := hns c hc
      have h2 : c ≠ ' ' := by
        intro he
        rw [he] at h1
        exact absurd h1 (by decide)
      rw [if_neg h2]
    rw [List.map_congr_left this]
    exact List.map_id _
  exact ⟨hns, hrepl, by unfold outputName; rw [hrepl]⟩

/-- Witness for C10 at the specification's example filename `sample A1.png`,
whose identifier is `A1`: the letter `A` of the identifier is not whitespace,
and the underscore replacement leaves the identifier unchanged. -/
theorem source_id_has_no_whitespace_witness :
    isPySpace 'A' = false ∧
    pyReplaceSpaceUnderscore (extract_source_from_filename ("sample A1.png".toList)) =
      extract_source_from_filename ("sample A1.png".toList) :=
  ⟨(source_id_has_no_whitespace ("sample A1.png".toList)).1 'A' (by decide),
   (source_id_has_no_whitespace ("sample A1.png".toList)).2.1⟩

/-! ### Claim C6 -/

/-- C6: the Metadata Locator answers "not found" whenever the image stem has
fewer than two whitespace tokens, regardless of the metadata directory's
contents; with two or more tokens it looks up exactly the name formed by the
remaining tokens (last dropped) rejoined with single spaces plus `.emd`, and
returns it only if that file exists. -/
theorem emd_locator_convention (imgName : List Char) (emdDirFiles : List (List Char)) :
    ((splitWs (pyStem imgName)).length < 2 →
      find_matching_emd imgName emdDirFiles = none) ∧
    (2 ≤ (splitWs (pyStem imgName)).length →
      find_matching_emd imgName emdDirFiles =
        (if (joinSpace (splitWs (pyStem imgName)).dropLast ++ ".emd".toList) ∈ emdDirFiles
         then some (joinSpace (splitWs (pyStem imgName)).dropLast ++ ".emd".toList)
         else none)) := by
  unfold find_matching_emd
  constructor
  · intro h
    rw [if_pos h]
  · intro h
    rw [if_neg (by omega)]

/-- Witness for C6: `Foo.png` has a one-token stem, so no metadata container
is matched even though `Foo.emd` exists in the directory. -/
theorem emd_locator_convention_witness :
    find_matching_emd ("Foo.png".toList) [("Foo.emd".toList)] = none :=
  (emd_locator_convention ("Foo.png".toList) [("Foo.emd".toList)]).1 (by decide)

/-! ### Claim C2 -/

/-- C2 (code bug): the Angle Extractor parses the key case-insensitively with
optional quoting of the value — `"alphaTilt": "-12.5"` gives -12.5,
`"AlphaTilt":"12.5"` gives 12.5, and an unquoted value also parses — but a
negative value written with the non-ASCII U+2212 minus sign is NOT parsed:
the pattern accepts it and captures `−12.5`, then `float()` raises
`ValueError`, the per-node handler swallows the error, and the extractor
yields "not found" instead of -12.5. -/
theorem alpha_tilt_parsing_behaviour :
    extract_alpha_tilt_from_emd
        (some ⟨[⟨"Metadata".toList, true, some "\"alphaTilt\": \"-12.5\"".toList⟩]⟩) =
      .ok (some (mkRat (-25) 2)) ∧
    extract_alpha_tilt_from_emd
        (some ⟨[⟨"Metadata".toList, true, some "\"AlphaTilt\":\"12.5\"".toList⟩]⟩) =
      .ok (some (mkRat 25 2)) ∧
    extract_alpha_tilt_from_emd
        (some ⟨[⟨"Metadata".toList, true, some "\"alphaTilt\": -12.5".toList⟩]⟩) =
      .ok (some (mkRat (-25) 2)) ∧
    extract_alpha_tilt_from_emd
        (some ⟨[⟨"Metadata".toList, true, some "\"alphaTilt\": \"−12.5\"".toList⟩]⟩) =
      .ok none := by decide

/-! ### Claim C3 -/

/-- C3 counterexample: on a metadata container that cannot be opened, the
extractor does not return "not found" — the `h5py.File` open is outside any
handler, so the error propagates to the caller. -/
theorem open_failure_is_not_none :
    extract_alpha_tilt_from_emd none ≠ .ok none ∧
    extract_alpha_tilt_from_emd none = .error () := by decide

/-- C3 amended: for every container that opens, the extractor returns either
a parsed angle or "not found" and never lets a per-node failure escape; but
when the container cannot be opened the open error propagates to the caller
instead of being turned into "not found". -/
theorem extract_returns_angle_or_none_when_openable :
    (∀ f : EmdFile, ∃ r : Option ℚ, extract_alpha_tilt_from_emd (some f) = .ok r) ∧
    extract_alpha_tilt_from_emd none = .error () :=
  ⟨fun f => ⟨f.nodes.foldl visitNode none, rfl⟩, rfl⟩

/-! ### Claim C8 -/

/-- C8 counterexample: handed a non-existent directory, the Source Grouper
does not signal an error — `Path.glob` yields no entries for a missing
directory — and the result is the empty mapping, indistinguishable from
scanning an existing empty directory. -/
theorem grouper_missing_dir_silently_empty :
    group_images_by_source none = [] ∧
    group_images_by_source none = group_images_by_source (some []) := by decide

/-- C8 amended: for a non-existent directory the Grouper itself silently
returns an empty mapping; the loud failure is provided by the GUI caller,
which checks existence first, warns, and never invokes the Grouper. -/
theorem grouper_missing_dir_checked_by_caller :
    group_images_by_source none = [] ∧
    scan_sources none = none ∧
    ∀ d, scan_sources (some d) = some (group_images_by_source (some d)) :=
  ⟨rfl, rfl, fun _ => rfl⟩

/-! ### Poll and inversion lemmas for the assembler -/

/-- A run of the collection loop that completes with records polled the flag
once per input image, at indices `k, k+1, ...`, and found it unsignalled. -/
theorem loadPhase1_polls (env : Env) (cancel : ℕ → Bool) :
    ∀ (files : List (List Char)) (k : ℕ) (recs : List TiltRecord),
      loadPhase1 env cancel files k = .ok (some recs) →
      ∀ i < files.length, cancel (k + i) = false := by
  intro files
  induction files with
  | nil => intro k recs _ i hi; simp at hi
  | cons img rest ih =>
    intro k recs h i hi
    rw [loadPhase1] at h
    by_cases hc : cancel k = true
    · rw [if_pos hc] at h; exact absurd h (by simp)
    · have hck : cancel k = false := Bool.eq_false_iff.mpr hc
      rw [if_neg hc] at h
      rcases i with _ | i
      · simpa using hck
      · have hstep : k + (i + 1) = (k + 1) + i := by omega
        have hi2 : i < rest.length := by simpa using Nat.lt_of_succ_lt_succ hi
        rw [hstep]
        split at h
        · exact ih (k + 1) recs h i hi2
        · split at h
          · exact absurd h (by simp)
          · exact ih (k + 1) recs h i hi2
          · split at h
            · exact absurd h (by simp)
            · exact absurd h (by simp)
            · rename_i recs2 heq
              exact ih (k + 1) recs2 heq i hi2

/-- A run of the stacking loop that completes polled the flag once per
record, at indices `k, k+1, ...`, and found it unsignalled. -/
theorem loadPhase2_polls (env : Env) (cancel : ℕ → Bool) :
    ∀ (rs : List TiltRecord) (k : ℕ) (imgs : List Image2D),
      loadPhase2 env cancel rs k = .ok (some imgs) →
      ∀ i < rs.length, cancel (k + i) = false := by
  intro rs
  induction rs with
  | nil => intro k imgs _ i hi; simp at hi
  | cons r rest ih =>
    intro k imgs h i hi
    rw [loadPhase2] at h
    by_cases hc : cancel k = true
    · rw [if_pos hc] at h; exact absurd h (by simp)
    · have hck : cancel k = false := Bool.eq_false_iff.mpr hc
      rw [if_neg hc] at h
      rcases i with _ | i
      · simpa using hck
      · have hstep : k + (i + 1) = (k + 1) + i := by omega
        have hi2 : i < rest.length := by simpa using Nat.lt_of_succ_lt_succ hi
        rw [hstep]
        split at h
        · exact absurd h (by simp)
        · split at h
          · exact absurd h (by simp)
          · exact absurd h (by simp)
          · rename_i imgs2 heq
            exact ih (k + 1) imgs2 heq i hi2

/-- A completed stacking loop returns exactly the decodes of its records, in
order: the i-th output slice is the decoded image of the i-th record. -/
theorem loadPhase2_decodes (env : Env) (cancel : ℕ → Bool) :
    ∀ (rs : List TiltRecord) (k : ℕ) (imgs : List Image2D),
      loadPhase2 env cancel rs k = .ok (some imgs) →
      List.Forall₂ (fun (r : TiltRecord) (img : Image2D) => env.decode r.2 = some img)
        rs imgs := by
  intro rs
  induction rs with
  | nil =>
    intro k imgs h
    rw [loadPhase2] at h
    simp only [Except.ok.injEq, Option.some.injEq] at h
    rw [← h]
    exact List.Forall₂.nil
  | cons r rest ih =>
    intro k imgs h
    rw [loadPhase2] at h
    by_cases hc : cancel k = true
    · rw [if_pos hc] at h; exact absurd h (by simp)
    · rw [if_neg hc] at h
      split at h
      · exact absurd h (by simp)
      · rename_i img hd
        split at h
        · exact absurd h (by simp)
        · exact absurd h (by simp)
        · rename_i imgs2 hrec
          simp only [Except.ok.injEq, Option.some.injEq] at h
          rw [← h]
          exact List.Forall₂.cons hd (ih (k + 1) imgs2 hrec)

/-- If `np.stack` succeeds it returns its input slices unchanged. -/
theorem npStack_ok {imgs stack : List Image2D} (h : npStack imgs = .ok stack) :
    stack = imgs := by
  unfold npStack at h
  split at h
  · exact absurd h (by simp)
  · split at h
    · simp only [Except.ok.injEq] at h
      exact h.symm
    · exact absurd h (by simp)

/-- Inversion of a successful assembler run: the collection loop completed
with a non-empty record list, and the stacking loop completed on the sorted
records, starting its polls after the collection loop's. -/
theorem load_ok_some (env : Env) (cancel : ℕ → Bool) (files : List (List Char))
    (slices : List Image2D)
    (h : load_images_sorted_by_alpha env cancel files = .ok (some slices)) :
    ∃ recs, loadPhase1 env cancel files 0 = .ok (some recs) ∧ recs ≠ [] ∧
      loadPhase2 env cancel (pySortRecords recs) files.length = .ok (some slices) := by
  unfold load_images_sorted_by_alpha at h
  split at h
  · exact absurd h (by simp)
  · exact absurd h (by simp)
  · rename_i recs h1
    split at h
    · exact absurd h (by simp)
    · rename_i he
      split at h
      · exact absurd h (by simp)
      · exact absurd h (by simp)
      · rename_i imgs h2
        split at h
        · exact absurd h (by simp)
        · rename_i stack h3
          simp only [Except.ok.injEq, Option.some.injEq] at h
          have hsi : stack = imgs := npStack_ok h3
          refine ⟨recs, h1, ?_, ?_⟩
          · intro hnil
            rw [hnil] at he
            exact he rfl
          · rw [h2, ← h, hsi]

/-- With the flag unsignalled, a record whose image decode raises makes the
stacking loop propagate a decode error. -/
theorem loadPhase2_error_of_bad_decode (env : Env) (cancel : ℕ → Bool)
    (hnc : ∀ j, cancel j = false) :
    ∀ (rs : List TiltRecord) (k : ℕ), (∃ r ∈ rs, env.decode r.2 = none) →
      ∃ p, loadPhase2 env cancel rs k = .error (.decodeError p) := by
  intro rs
  induction rs with
  | nil =>
    rintro k ⟨r, hr, _⟩
    cases hr
  | cons r rest ih =>
    rintro k ⟨r0, hr0, hd⟩
    rw [loadPhase2, if_neg (by rw [hnc k]; exact Bool.false_ne_true)]
    rcases List.mem_cons.mp hr0 with rfl | hmem
    · refine ⟨r0.2, ?_⟩
      rw [hd]
    · cases hdec : env.decode r.2 with
      | none => exact ⟨r.2, rfl⟩
      | some img =>
        obtain ⟨p, hp⟩ := ih (k + 1) ⟨r0, hmem, hd⟩
        refine ⟨p, ?_⟩
        rw [hp]

/-! ### Claim C4 -/

/-- C4: a signalled cancellation at a poll point makes the Stack Assembler
return "no result" and the worker step write no file; in particular a flag
already true at the first poll aborts before any image is touched. And
conversely, a run that returns a volume polled the flag once per input image
and once per stacked slice and found it false every time — so no cancelled
poll point can precede a returned volume. -/
theorem cancellation_aborts_with_none (env : Env) (cancel : ℕ → Bool)
    (source : List Char) (files : List (List Char)) :
    (files ≠ [] → cancel 0 = true →
      load_images_sorted_by_alpha env cancel files = .ok none ∧
      workerProcessGroup env cancel source files = .ok none) ∧
    (∀ slices, load_images_sorted_by_alpha env cancel files = .ok (some slices) →
      ∀ k < files.length + slices.length, cancel k = false) := by
  constructor
  · intro hne hc0
    have hload : load_images_sorted_by_alpha env cancel files = .ok none := by
      cases files with
      | nil => exact absurd rfl hne
      | cons img rest =>
        unfold load_images_sorted_by_alpha
        rw [loadPhase1, if_pos hc0]
    refine ⟨hload, ?_⟩
    unfold workerProcessGroup
    rw [hload]
  · intro slices h k hk
    obtain ⟨recs, h1, _, h2⟩ := load_ok_some env cancel files slices h
    have hlen : (pySortRecords recs).length = slices.length :=
      (loadPhase2_decodes env cancel _ _ _ h2).length_eq
    by_cases hkf : k < files.length
    · simpa using loadPhase1_polls env cancel files 0 recs h1 k hkf
    · have hi : k - files.length < (pySortRecords recs).length := by omega
      have hpoll := loadPhase2_polls env cancel (pySortRecords recs) files.length slices
        h2 (k - files.length) hi
      have hke : files.length + (k - files.length) = k := by omega
      rwa [hke] at hpoll

/-- Witness for C4: with the flag already signalled, the sample series
yields "no result" and no output file. -/
theorem cancellation_aborts_with_none_witness :
    load_images_sorted_by_alpha sampleEnv alwaysCancel sampleFiles = .ok none ∧
    workerProcessGroup sampleEnv alwaysCancel ("Foo".toList) sampleFiles = .ok none :=
  (cancellation_aborts_with_none sampleEnv alwaysCancel ("Foo".toList) sampleFiles).1
    (by decide) rfl

/-! ### Stable-sort lemmas for the record sort -/

/-- Records sharing one tilt angle are pairwise ordered by the sort key. -/
theorem pairwise_recLE_of_const_key (a : ℚ) :
    ∀ l : List TiltRecord, (∀ x ∈ l, x.1 = a) → l.Pairwise recLE := by
  intro l
  induction l with
  | nil => intro _; exact List.Pairwise.nil
  | cons x xs ih =>
    intro h
    refine List.Pairwise.cons ?_ (ih fun y hy => h y (List.mem_cons_of_mem _ hy))
    intro y hy
    unfold recLE
    rw [h x (List.mem_cons_self _ _), h y (List.mem_cons_of_mem _ hy)]

/-- Stability of the record sort, in filter form: restricting the sorted list
to the records of any one angle gives exactly the same subsequence as
restricting the input — ties keep their input order. -/
theorem filter_pySortRecords (recs : List TiltRecord) (a : ℚ) :
    (pySortRecords recs).filter (fun r => decide (r.1 = a)) =
      recs.filter (fun r => decide (r.1 = a)) := by
  have hpw : (recs.filter (fun r => decide (r.1 = a))).Pairwise recLE := by
    refine pairwise_recLE_of_const_key a _ ?_
    intro x hx
    exact of_decide_eq_true (List.mem_filter.mp hx).2
  have hsub : List.Sublist (recs.filter (fun r => decide (r.1 = a))) (pySortRecords recs) :=
    List.sublist_insertionSort hpw (List.filter_sublist recs)
  have h2 := hsub.filter (fun r => decide (r.1 = a))
  rw [List.filter_eq_self.mpr
    (fun x hx => (List.mem_filter.mp hx).2)] at h2
  have hperm : List.Perm ((pySortRecords recs).filter (fun r => decide (r.1 = a)))
      (recs.filter (fun r => decide (r.1 = a))) :=
    (List.perm_insertionSort recLE recs).filter _
  exact (h2.eq_of_length hperm.length_eq.symm).symm

/-! ### Claim C1 -/

/-- C1: when a group is assembled without cancellation and a volume is
returned, its slices are, in order, the decoded images of the collected
records sorted ascending by tilt angle: slice i is the decode of sorted
record i (`Forall₂`), the sorted keys are nondecreasing, the sorted records
are a permutation of the records collected in input order, and restricting
to any one angle preserves the input order of equal-angle records — the sort
is stable. -/
theorem volume_slices_sorted_by_tilt (env : Env) (cancel : ℕ → Bool)
    (files : List (List Char)) (slices : List Image2D)
    (_hnc : ∀ k, cancel k = false)
    (h : load_images_sorted_by_alpha env cancel files = .ok (some slices)) :
    ∃ recs, loadPhase1 env cancel files 0 = .ok (some recs) ∧
      List.Forall₂ (fun (r : TiltRecord) (img : Image2D) => env.decode r.2 = some img)
        (pySortRecords recs) slices ∧
      (pySortRecords recs).Pairwise recLE ∧
      (pySortRecords recs).Perm recs ∧
      (∀ a : ℚ, (pySortRecords recs).filter (fun r => decide (r.1 = a)) =
          recs.filter (fun r => decide (r.1 = a))) := by
  obtain ⟨recs, h1, _, h2⟩ := load_ok_some env cancel files slices h
  exact ⟨recs, h1, loadPhase2_decodes env cancel _ _ _ h2,
    List.sorted_insertionSort recLE recs,
    List.perm_insertionSort recLE recs,
    filter_pySortRecords recs⟩

/-- Witness for C1 at the specification's three-image scenario: angles
10, -5, 0 in scan order, so the returned slices are the images of
`t2 Foo.png`, `t3 Foo.png`, `t1 Foo.png` in that order. -/
theorem volume_slices_sorted_by_tilt_witness :
    ∃ recs, loadPhase1 sampleEnv neverCancel sampleFiles 0 = .ok (some recs) ∧
      List.Forall₂
        (fun (r : TiltRecord) (img : Image2D) => sampleEnv.decode r.2 = some img)
        (pySortRecords recs) [[[2]], [[3]], [[1]]] ∧
      (pySortRecords recs).Pairwise recLE ∧
      (pySortRecords recs).Perm recs ∧
      (∀ a : ℚ, (pySortRecords recs).filter (fun r => decide (r.1 = a)) =
          recs.filter (fun r => decide (r.1 = a))) :=
  volume_slices_sorted_by_tilt sampleEnv neverCancel sampleFiles [[[2]], [[3]], [[1]]]
    (fun _ => rfl) (by decide)

/-! ### Claim C7 -/

/-- C7: the error-policy asymmetry of the Stack Assembler. A missing metadata
container or a missing angle merely skips the image — the loop continues as
if the image were absent (first two conjuncts) — but an image decode failure
during the stacking phase is not caught: the assembler returns a decode
error (third conjunct), and the worker's single top-level handler aborts the
whole run with that one error, writing no file for it or any later group
(fourth conjunct). -/
theorem decode_failure_is_fatal (env : Env) (cancel : ℕ → Bool) :
    (∀ img rest k, cancel k = false →
      find_matching_emd img env.emdDirFiles = none →
      loadPhase1 env cancel (img :: rest) k = loadPhase1 env cancel rest (k + 1)) ∧
    (∀ img rest k p, cancel k = false →
      find_matching_emd img env.emdDirFiles = some p →
      extract_alpha_tilt_from_emd (env.openEmd p) = .ok none →
      loadPhase1 env cancel (img :: rest) k = loadPhase1 env cancel rest (k + 1)) ∧
    (∀ files recs, (∀ j, cancel j = false) →
      loadPhase1 env cancel files 0 = .ok (some recs) → recs ≠ [] →
      (∃ r ∈ recs, env.decode r.2 = none) →
      ∃ p, load_images_sorted_by_alpha env cancel files = .error (.decodeError p)) ∧
    (∀ source files e more, workerProcessGroup env neverCancel source files = .error e →
      workerRun env ((source, files) :: more) = ([], some e)) := by
  refine ⟨?_, ?_, ?_, ?_⟩
  · intro img rest k hck hfm
    rw [loadPhase1, if_neg (by rw [hck]; exact Bool.false_ne_true)]
    simp only [hfm]
  · intro img rest k p hck hfm hex
    rw [loadPhase1, if_neg (by rw [hck]; exact Bool.false_ne_true)]
    simp only [hfm, hex]
  · intro files recs hnc h1 hne hbad
    obtain ⟨r0, hr0, hd⟩ := hbad
    have hmem : r0 ∈ pySortRecords recs := (List.mem_insertionSort recLE).mpr hr0
    obtain ⟨p, hp⟩ :=
      loadPhase2_error_of_bad_decode env cancel hnc (pySortRecords recs)
        files.length ⟨r0, hmem, hd⟩
    have he : ¬(recs.isEmpty = true) := by
      cases recs with
      | nil => exact absurd rfl hne
      | cons a l => simp
    refine ⟨p, ?_⟩
    unfold load_images_sorted_by_alpha
    simp only [h1]
    rw [if_neg he, hp]
  · intro source files e more hg
    rw [workerRun, hg]

/-- Witness for C7: the sample series with every decode raising — the
collection loop succeeds with three records, and the run aborts with a
decode error. -/
theorem decode_failure_is_fatal_witness :
    ∃ p, load_images_sorted_by_alpha badDecodeEnv neverCancel sampleFiles =
      .error (.decodeError p) :=
  (decode_failure_is_fatal badDecodeEnv neverCancel).2.2.1 sampleFiles
    [(mkRat 10 1, "t1 Foo.png".toList), (Rat.neg (mkRat 5 1), "t2 Foo.png".toList),
     (mkRat 0 1, "t3 Foo.png".toList)]
    (fun _ => rfl) (by decide) (by decide)
    ⟨(mkRat 10 1, "t1 Foo.png".toList), by decide, rfl⟩

/-! ### Grouping lemmas -/

/-- Inserting an image into the dict adds it to exactly one bucket: the
flattened contents gain `img` and nothing else. -/
theorem insertGroup_flatten_perm (gs : List (List Char × List (List Char)))
    (s img : List Char) :
    List.Perm (((insertGroup gs s img).map Prod.snd).flatten)
      (((gs.map Prod.snd).flatten) ++ [img]) := by
  induction gs with
  | nil => simp [insertGroup]
  | cons kl0 rest ih =>
    obtain ⟨k, l⟩ := kl0
    rw [insertGroup]
    by_cases hk : k = s
    · rw [if_pos hk]
      simp only [List.map_cons, List.flatten_cons]
      rw [List.append_assoc, List.append_assoc]
      exact List.Perm.append_left l List.perm_append_comm
    · rw [if_neg hk]
      simp only [List.map_cons, List.flatten_cons]
      rw [List.append_assoc]
      exact List.Perm.append_left l ih

/-- Folding a list of images into the dict appends exactly those images to
the flattened contents. -/
theorem foldGroups_flatten_perm (imgs : List (List Char)) :
    ∀ gs₀ : List (List Char × List (List Char)),
      List.Perm
        (((imgs.foldl
            (fun gs img => insertGroup gs (extract_source_from_filename img) img)
            gs₀).map Prod.snd).flatten)
        (((gs₀.map Prod.snd).flatten) ++ imgs) := by
  induction imgs with
  | nil => intro gs₀; simp
  | cons x xs ih =>
    intro gs₀
    simp only [List.foldl_cons]
    refine (ih (insertGroup gs₀ (extract_source_from_filename x) x)).trans ?_
    refine (List.Perm.append_right xs (insertGroup_flatten_perm gs₀ _ x)).trans ?_
    rw [List.append_assoc]
    exact List.Perm.refl _

/-- Insertion keeps every bucket keyed by the Classifier output of its
members, provided the inserted image is classified to the target key. -/
theorem insertGroup_buckets (s img : List Char)
    (hs : extract_source_from_filename img = s) :
    ∀ gs, (∀ kl ∈ gs, ∀ x ∈ kl.2, extract_source_from_filename x = kl.1) →
      ∀ kl ∈ insertGroup gs s img, ∀ x ∈ kl.2,
        extract_source_from_filename x = kl.1 := by
  intro gs
  induction gs with
  | nil =>
    intro _ kl hkl x hx
    rw [insertGroup] at hkl
    rcases List.mem_singleton.mp hkl with rfl
    rcases List.mem_singleton.mp hx with rfl
    exact hs
  | cons kl0 rest ih =>
    obtain ⟨k, l⟩ := kl0
    intro h kl hkl x hx
    rw [insertGroup] at hkl
    by_cases hk : k = s
    · rw [if_pos hk] at hkl
      rcases List.mem_cons.mp hkl with rfl | hmem
      · rcases List.mem_append.mp hx with hxl | hxi
        · exact h (k, l) (List.mem_cons_self _ _) x hxl
        · rcases List.mem_singleton.mp hxi with rfl
          exact hs.trans hk.symm
      · exact h kl (List.mem_cons_of_mem _ hmem) x hx
    · rw [if_neg hk] at hkl
      rcases List.mem_cons.mp hkl with rfl | hmem
      · exact h (k, l) (List.mem_cons_self _ _) x hx
      · exact ih (fun kl2 h2 => h kl2 (List.mem_cons_of_mem _ h2)) kl hmem x hx

/-- Folding keeps every bucket keyed by the Classifier output of its
members. -/
theorem foldGroups_buckets (imgs : List (List Char)) :
    ∀ gs₀, (∀ kl ∈ gs₀, ∀ x ∈ kl.2, extract_source_from_filename x = kl.1) →
      ∀ kl ∈ imgs.foldl
          (fun gs img => insertGroup gs (extract_source_from_filename img) img) gs₀,
        ∀ x ∈ kl.2, extract_source_from_filename x = kl.1 := by
  induction imgs with
  | nil => intro gs₀ h; simpa using h
  | cons x xs ih =>
    intro gs₀ h
    simp only [List.foldl_cons]
    exact ih _ (insertGroup_buckets _ x rfl gs₀ h)

/-- The keys after an insertion: unchanged if the key is present, otherwise
the new key is appended at the end (dict insertion order). -/
theorem insertGroup_keys (s img : List Char) :
    ∀ gs : List (List Char × List (List Char)),
      (insertGroup gs s img).map Prod.fst =
        if s ∈ gs.map Prod.fst then gs.map Prod.fst
        else gs.map Prod.fst ++ [s] := by
  intro gs
  induction gs with
  | nil => simp [insertGroup]
  | cons kl0 rest ih =>
    obtain ⟨k, l⟩ := kl0
    rw [insertGroup]
    by_cases hk : k = s
    · rw [if_pos hk]
      simp only [List.map_cons]
      rw [if_pos (by rw [hk]; exact List.mem_cons_self s _)]
    · rw [if_neg hk]
      simp only [List.map_cons, ih]
      by_cases hs : s ∈ rest.map Prod.fst
      · rw [if_pos hs, if_pos (List.mem_cons_of_mem k hs)]
      · have hns : s ∉ (k :: rest.map Prod.fst) := by
          intro hmem
          rcases List.mem_cons.mp hmem with he | hmm
          · exact hk he.symm
          · exact hs hmm
        rw [if_neg hs, if_neg hns, List.cons_append]

/-- Insertion preserves distinctness of the keys. -/
theorem insertGroup_keys_nodup (s img : List Char)
    (gs : List (List Char × List (List Char)))
    (h : (gs.map Prod.fst).Nodup) :
    ((insertGroup gs s img).map Prod.fst).Nodup := by
  rw [insertGroup_keys]
  split
  · exact h
  · rename_i hs
    simp [List.nodup_append, h, hs]

/-- Key membership after an insertion. -/
theorem insertGroup_mem_keys (s img k : List Char)
    (gs : List (List Char × List (List Char))) :
    k ∈ (insertGroup gs s img).map Prod.fst ↔
      k ∈ gs.map Prod.fst ∨ k = s := by
  rw [insertGroup_keys]
  split
  · rename_i hs
    constructor
    · exact Or.inl
    · rintro (h | rfl)
      · exact h
      · exact hs
  · simp

/-- Folding preserves distinctness of the keys. -/
theorem foldGroups_keys_nodup (imgs : List (List Char)) :
    ∀ gs₀, ((gs₀.map Prod.fst).Nodup) →
      ((imgs.foldl
          (fun gs img => insertGroup gs (extract_source_from_filename img) img)
          gs₀).map Prod.fst).Nodup := by
  induction imgs with
  | nil => intro gs₀ h; simpa using h
  | cons x xs ih =>
    intro gs₀ h
    simp only [List.foldl_cons]
    exact ih _ (insertGroup_keys_nodup _ x gs₀ h)

/-- After folding, the keys are the initial keys plus the Classifier outputs
of the folded images. -/
theorem foldGroups_mem_keys (imgs : List (List Char)) :
    ∀ gs₀ (k : List Char),
      k ∈ (imgs.foldl
          (fun gs img => insertGroup gs (extract_source_from_filename img) img)
          gs₀).map Prod.fst ↔
        k ∈ gs₀.map Prod.fst ∨ ∃ x ∈ imgs, extract_source_from_filename x = k := by
  induction imgs with
  | nil => intro gs₀ k; simp
  | cons x xs ih =>
    intro gs₀ k
    simp only [List.foldl_cons]
    rw [ih, insertGroup_mem_keys]
    constructor
    · rintro ((h | rfl) | h)
      · exact Or.inl h
      · exact Or.inr ⟨x, List.mem_cons_self _ _, rfl⟩
      · obtain ⟨y, hy, he⟩ := h
        exact Or.inr ⟨y, List.mem_cons_of_mem _ hy, he⟩
    · rintro (h | ⟨y, hy, he⟩)
      · exact Or.inl (Or.inl h)
      · rcases List.mem_cons.mp hy with rfl | hmem
        · exact Or.inl (Or.inr he.symm)
        · exact Or.inr ⟨y, hmem, he⟩

/-- With distinct keys, two entries of the mapping sharing a key are the
same entry. -/
theorem entry_eq_of_keys_nodup :
    ∀ gs : List (List Char × List (List Char)), (gs.map Prod.fst).Nodup →
      ∀ kl1 kl2, kl1 ∈ gs → kl2 ∈ gs → kl1.1 = kl2.1 → kl1 = kl2 := by
  intro gs
  induction gs with
  | nil => intro _ kl1 kl2 h1; cases h1
  | cons kl0 rest ih =>
    intro hnd kl1 kl2 h1 h2 hk
    rw [List.map_cons, List.nodup_cons] at hnd
    rcases List.mem_cons.mp h1 with rfl | h1m
    · rcases List.mem_cons.mp h2 with rfl | h2m
      · rfl
      · have hm : kl1.1 ∈ rest.map Prod.fst := by
          rw [hk]
          exact List.mem_map_of_mem Prod.fst h2m
        exact absurd hm hnd.1
    · rcases List.mem_cons.mp h2 with rfl | h2m
      · have hm : kl2.1 ∈ rest.map Prod.fst := by
          rw [← hk]
          exact List.mem_map_of_mem Prod.fst h1m
        exact absurd hm hnd.1
      · exact ih hnd.2 kl1 kl2 h1m h2m hk

/-! ### Claim C5 -/

/-- C5: grouping is a partition of the scanned images. The buckets together
hold exactly the enumerated image files (as a permutation, so each file
contributes exactly its multiplicity); every bucket member is classified to
its bucket's key; the keys are distinct and are exactly the Classifier
outputs over the scanned files; and every scanned file lies in exactly one
group. -/
theorem grouping_is_partition (dir : Option (List (List Char))) :
    List.Perm (((group_images_by_source dir).map Prod.snd).flatten) (globImages dir) ∧
    (∀ kl ∈ group_images_by_source dir, ∀ x ∈ kl.2,
        extract_source_from_filename x = kl.1) ∧
    ((group_images_by_source dir).map Prod.fst).Nodup ∧
    (∀ k, k ∈ (group_images_by_source dir).map Prod.fst ↔
        ∃ x ∈ globImages dir, extract_source_from_filename x = k) ∧
    (∀ x ∈ globImages dir,
        ∃! kl, kl ∈ group_images_by_source dir ∧ x ∈ kl.2) := by
  have hflat : List.Perm (((group_images_by_source dir).map Prod.snd).flatten)
      (globImages dir) := by
    simpa [group_images_by_source] using foldGroups_flatten_perm (globImages dir) []
  have hbuckets : ∀ kl ∈ group_images_by_source dir, ∀ x ∈ kl.2,
      extract_source_from_filename x = kl.1 :=
    foldGroups_buckets (globImages dir) [] (by intro kl h; cases h)
  have hnodup : ((group_images_by_source dir).map Prod.fst).Nodup :=
    foldGroups_keys_nodup (globImages dir) [] (by simp)
  refine ⟨hflat, hbuckets, hnodup, ?_, ?_⟩
  · intro k
    simpa using foldGroups_mem_keys (globImages dir) [] k
  · intro x hx
    have hxf : x ∈ ((group_images_by_source dir).map Prod.snd).flatten :=
      hflat.mem_iff.mpr hx
    obtain ⟨l, hl, hxl⟩ := List.mem_flatten.mp hxf
    obtain ⟨kl, hkl, rfl⟩ := List.mem_map.mp hl
    refine ⟨kl, ⟨hkl, hxl⟩, ?_⟩
    rintro kl2 ⟨hkl2, hxl2⟩
    exact entry_eq_of_keys_nodup _ hnodup kl2 kl hkl2 hkl
      ((hbuckets kl2 hkl2 x hxl2).symm.trans (hbuckets kl hkl x hxl))

/-- Witness for C5 at the sample directory: the image `a A.png` belongs to
the bucket keyed `A`, and the theorem instance confirms its classification. -/
theorem grouping_is_partition_witness :
    extract_source_from_filename ("a A.png".toList) = "A".toList :=
  (grouping_is_partition sampleDir).2.1
    ("A".toList, ["a A.png".toList, "b A.png".toList]) (by decide)
    ("a A.png".toList) (by decide)

/-! ### Claim C9 -/

/-- C9: the Stack Assembler is deterministic — with the surroundings (file
listings, container contents, image contents) fixed and any two never-true
cancellation predicates, two runs return equal output volumes, and the
per-group worker step writes equal files. -/
theorem assembler_deterministic (env : Env) (source : List Char)
    (files : List (List Char)) (c1 c2 : ℕ → Bool)
    (h1 : ∀ k, c1 k = false) (h2 : ∀ k, c2 k = false) :
    load_images_sorted_by_alpha env c1 files = load_images_sorted_by_alpha env c2 files ∧
    workerProcessGroup env c1 source files = workerProcessGroup env c2 source files := by
  have e : c1 = c2 := funext fun k => (h1 k).trans (h2 k).symm
  rw [e]
  exact ⟨rfl, rfl⟩

/-- Witness for C9 at the sample series with the never-signalled flag. -/
theorem assembler_deterministic_witness :
    load_images_sorted_by_alpha sampleEnv neverCancel sampleFiles =
      load_images_sorted_by_alpha sampleEnv neverCancel sampleFiles ∧
    workerProcessGroup sampleEnv neverCancel ("Foo".toList) sampleFiles =
      workerProcessGroup sampleEnv neverCancel ("Foo".toList) sampleFiles :=
  assembler_deterministic sampleEnv ("Foo".toList) sampleFiles neverCancel neverCancel
    (fun _ => rfl) (fun _ => rfl)

end Emd2Mrc
